import Mathlib

/-!
Shallow embedding of the Summer 2019 calculator protocol stack:
the pin plane (FTDIAsyncBB.Port / IOPin), the bit-bang SPI layer
(FTDIAsyncBB.SPI), the MCP23S17 register protocol, and the convergence
sampler of Summer2019Calculator.MainControl.

Python integers are modelled as Nat / Int; a Python bitwise and with a
low-bit mask (x & 0x7, x & 0x1f, x & 0xff) is modelled as x % 8, x % 32,
x % 256, which is exact for arbitrary (also negative) Python integers.
The external FTDI link is modelled by a ghost trace of link writes and by
an explicit input-snapshot parameter for reads.
-/

namespace Calc

/-- One GPIO pin of the pin plane (FTDIAsyncBB.IOPin): physical pin
number, diagnostic name, direction flag and current logical value.
The pin number is an Int so that out-of-range construction arguments
(for example -1) are representable, as in the Python source. -/
structure IOPin where
  no : Int
  name : String
  is_output : Bool
  value : Nat
deriving Repr, DecidableEq

/-- IOPin.__init__: the initial value is normalized to 0 / 1
(value = 1 if init_val else 0). -/
def IOPin.make (num : Int) (nm : String) (is_out : Bool) (init_val : Nat) : IOPin :=
  { no := num, name := nm, is_output := is_out,
    value := if init_val ≠ 0 then 1 else 0 }

/-- An element of the pin list handed to Port.__init__.  Python is
duck-typed: the list may contain values that are not IOPin objects, which
the constructor rejects with its isinstance check.  notPin stands for any
such non-pin entry. -/
inductive PinEntry where
  | pin (p : IOPin)
  | notPin
deriving Repr, DecidableEq

/-- Maximum number of bytes sent in one USB packet (Port.TXD_PACKET_MAX). -/
def TXD_PACKET_MAX : Nat := 16

/-- Debug mode signal chart length (Port.SIGNAL_LOG_SIZE). -/
def SIGNAL_LOG_SIZE : Nat := 100

/-- State of a constructed FTDIAsyncBB.Port.  The fields mirror the
Python attributes; `writes` is a ghost trace recording every byte string
passed to the external link (self.ftd.write) in hardware mode. -/
structure PortState where
  pin_list : List IOPin
  debug_mode : Bool
  txd_buf : List Nat
  signal_history : List Nat
  debug_read_data : Nat
  output_pins : Nat
  input_pins : Nat
  writes : List (List Nat)
deriving Repr, DecidableEq

/-- Bitwise and-not on Nat, modelling Python `a & ~b` on unbounded
integers: the bits of `b` are cleared from `a`.  Written as
`a ^^^ (a &&& b)` (an equivalent form built from kernel-computable
operations); `testBit_natAndNot` below states the defining bit-level
behaviour. -/
def natAndNot (a b : Nat) : Nat := a ^^^ (a &&& b)

namespace Port

/-- Port._assemble_write_data: one byte whose bit i is set iff some pin
with number i is an output pin with value 1. -/
def assemble_write_data (pins : List IOPin) : Nat :=
  pins.foldl
    (fun val pin =>
      if pin.is_output && pin.value != 0 then val ||| (1 <<< pin.no.toNat) else val)
    0

/-- Port._flush_txbuf: append the buffered bytes to the bounded signal
history (evicting the oldest entries past SIGNAL_LOG_SIZE), send them to
the link as one write when not in debug mode, and clear the buffer.
A no-op when the buffer is empty. -/
def flush_txbuf (s : PortState) : PortState :=
  if s.txd_buf = [] then s
  else
    let hist := s.signal_history ++ s.txd_buf
    let hist := hist.drop (hist.length - SIGNAL_LOG_SIZE)
    { s with
      signal_history := hist,
      writes := if s.debug_mode then s.writes else s.writes ++ [s.txd_buf],
      txd_buf := [] }

/-- Port.set_pins: assemble the current output-pin values into one byte,
append it to the transmit buffer, and flush when `flush` is requested or
the buffer has reached TXD_PACKET_MAX bytes. -/
def set_pins (s : PortState) (flush : Bool) : PortState :=
  let xmit_data := assemble_write_data s.pin_list
  let s := { s with txd_buf := s.txd_buf ++ [xmit_data] }
  if flush || decide (TXD_PACKET_MAX ≤ s.txd_buf.length) then flush_txbuf s else s

/-- The input-pin update loop at the end of Port.get_pins: every input
pin takes the corresponding bit of the raw snapshot, output pins are
untouched. -/
def update_input_pins (pins : List IOPin) (raw_val : Nat) : List IOPin :=
  pins.map
    (fun pin =>
      if pin.is_output then pin
      else { pin with value := (raw_val >>> pin.no.toNat) &&& 1 })

/-- Port.get_pins: in debug mode read the injected fake value, otherwise
flush the transmit buffer and read the link snapshot (`link_input` stands
for the byte returned by self.ftd.getBitMode()); then update the input
pins from the raw value. -/
def get_pins (s : PortState) (link_input : Nat) : PortState :=
  if s.debug_mode then
    { s with pin_list := update_input_pins s.pin_list s.debug_read_data }
  else
    let s := flush_txbuf s
    { s with pin_list := update_input_pins s.pin_list link_input }

/-- The per-pin validation and mask computation loop of Port.__init__:
reject non-pin entries, out-of-range pin numbers and duplicate pin
numbers; accumulate the active and output masks and normalize each pin
value to 0 / 1. -/
def process_pins : List PinEntry → Nat → Nat → Except String (List IOPin × Nat × Nat)
  | [], active, output => .ok ([], active, output)
  | e :: rest, active, output =>
    match e with
    | .notPin => .error "An IOPin object must be supplied as a pin"
    | .pin p =>
      if ¬ (0 ≤ p.no ∧ p.no < 8) then .error "Pin number is out of range"
      else
        let pin_mask := 1 <<< p.no.toNat
        if pin_mask &&& active ≠ 0 then .error "Pin number is not unique"
        else
          let p2 : IOPin := { p with value := if p.value = 0 then 0 else 1 }
          match process_pins rest (active ||| pin_mask)
              (if p.is_output then output ||| pin_mask else output) with
          | .error msg => .error msg
          | .ok (ps, a, o) => .ok (p2 :: ps, a, o)

/-- Port.__init__ in simulation (debug) mode and, mask-wise, in hardware
mode: validate the pin list, compute the output and input masks
(input = active & ~output, modelled with natAndNot), and push the initial
pin values with one flushing set_pins.  The hardware-only link
initialization (open retries, device reset, baud rate, bit mode) touches
only the external link and is not part of the state model. -/
def init (pin_list : Option (List PinEntry)) (debug_mode : Bool) :
    Except String PortState :=
  match pin_list with
  | none => .error "Valid pin definition list not supplied"
  | some entries =>
    if entries.length = 0 then .error "Valid pin definition list not supplied"
    else
      match process_pins entries 0 0 with
      | .error msg => .error msg
      | .ok (pins, active, output) =>
        let s : PortState :=
          { pin_list := pins, debug_mode := debug_mode, txd_buf := [],
            signal_history := [], debug_read_data := 0,
            output_pins := output, input_pins := natAndNot active output,
            writes := [] }
        .ok (set_pins s true)

/-- Port.get_pin_object: look a pin up by pin number (the Python
dictionary is keyed by the unique pin number). -/
def get_pin_object (s : PortState) (pin_no : Int) : Option IOPin :=
  s.pin_list.find? (fun p => p.no = pin_no)

/-- Update of the value field of every pin carrying the given pin number
inside a pin list (with unique pin numbers: of the one such pin). -/
def upd_pin (pin_no : Int) (v : Nat) (pins : List IOPin) : List IOPin :=
  pins.map (fun p => if p.no = pin_no then { p with value := v } else p)

/-- Assignment to the value field of the pin with the given number (the
Python code mutates the shared IOPin object through an alias; with unique
pin numbers this is the same as updating it inside the list). -/
def set_pin_value (s : PortState) (pin_no : Int) (v : Nat) : PortState :=
  { s with pin_list := upd_pin pin_no v s.pin_list }

/-- Current value of the pin with the given number (0 when absent; the
callers below only use it for pins validated to exist). -/
def pin_value (s : PortState) (pin_no : Int) : Nat :=
  match get_pin_object s pin_no with
  | some p => p.value
  | none => 0

end Port

/-- State of an FTDIAsyncBB.SPI object: the underlying port plus the pin
numbers of the clock, transmit-data and receive-data pins.  The Python
object holds aliases to the IOPin objects; with unique pin numbers,
resolving the number through the port on each access is equivalent. -/
structure SPIState where
  port : PortState
  ck : Int
  txd : Int
  rxd : Int
deriving Repr, DecidableEq

namespace SPI

/-- SPI.__init__: resolve the three pins, check existence, uniqueness and
directions, then drive the clock low (idle) and push the pin values. -/
def init (port : PortState) (pin_ck pin_txd pin_rxd : Int) :
    Except String SPIState :=
  match Port.get_pin_object port pin_ck, Port.get_pin_object port pin_txd,
      Port.get_pin_object port pin_rxd with
  | some ckp, some txdp, some rxdp =>
    if ¬ (pin_ck ≠ pin_txd ∧ pin_ck ≠ pin_rxd ∧ pin_txd ≠ pin_rxd) then
      .error "Pins must have unique pin numbers."
    else if ¬ (ckp.is_output ∧ txdp.is_output ∧ ¬ rxdp.is_output) then
      .error "Pins do not have right in/out attribute."
    else
      let port := Port.set_pin_value port pin_ck 0
      .ok { port := Port.set_pins port true, ck := pin_ck, txd := pin_txd,
            rxd := pin_rxd }
  | _, _, _ => .error "Pin does not exist in the port."

/-- SPI.send_byte: if the clock is not idle-low, force it low and flush
(corrective warning path); then for each of the 8 bits, most significant
first, buffer clock-low-with-data and clock-high pin states without
flushing; finally set the clock low and flush. -/
def send_byte (spi : SPIState) (value : Nat) : SPIState :=
  let spi :=
    if Port.pin_value spi.port spi.ck ≠ 0 then
      { spi with port := Port.set_pins (Port.set_pin_value spi.port spi.ck 0) true }
    else spi
  let spi :=
    (List.range 8).foldl
      (fun spi j =>
        let i := 7 - j
        let port := Port.set_pin_value spi.port spi.ck 0
        let port := Port.set_pin_value port spi.txd ((value >>> i) &&& 1)
        let port := Port.set_pins port false
        let port := Port.set_pin_value port spi.ck 1
        let port := Port.set_pins port false
        { spi with port := port })
      spi
  { spi with port := Port.set_pins (Port.set_pin_value spi.port spi.ck 0) true }

/-- SPI.receive_byte: same idle-clock correction; then for each of the 8
bits, most significant first: read the pins (which in hardware mode
flushes first), shift the received-data pin value into the accumulator,
raise the clock (buffered), lower the clock and flush.  `ins j` is the
link input snapshot available at the j-th read. -/
def receive_byte (spi : SPIState) (ins : Nat → Nat) : SPIState × Nat :=
  let spi :=
    if Port.pin_value spi.port spi.ck ≠ 0 then
      { spi with port := Port.set_pins (Port.set_pin_value spi.port spi.ck 0) true }
    else spi
  (List.range 8).foldl
    (fun sv j =>
      let (spi, val) := sv
      let val := val <<< 1
      let port := Port.get_pins spi.port (ins j)
      let val := val ||| Port.pin_value { spi with port := port }.port spi.rxd
      let port := Port.set_pins (Port.set_pin_value port spi.ck 1) false
      let port := Port.set_pins (Port.set_pin_value port spi.ck 0) true
      ({ spi with port := port }, val))
    (spi, 0)

end SPI

/-- State of an MCP23S17 register-protocol object: the SPI layer plus the
chip-select and reset pin numbers, and a ghost log of the register writes
issued on the wire (device, register and data after the opcode masking,
so each entry is the broadcast frame as actually sent). -/
structure MCPState where
  spi : SPIState
  cs : Int
  rst : Int
  reg_writes : List (Nat × Nat × Nat)
deriving Repr, DecidableEq

namespace MCP23S17

/-- MCP23S17.reset_devices: drive chip select inactive-high and pulse the
low-active reset line low then high, pushing the pin states at each step. -/
def reset_devices (m : MCPState) : MCPState :=
  let port := Port.set_pin_value m.spi.port m.cs 1
  let port := Port.set_pin_value port m.rst 0
  let port := Port.set_pins port true
  let port := Port.set_pin_value port m.rst 1
  let port := Port.set_pins port true
  { m with spi := { m.spi with port := port } }

/-- MCP23S17.write_register: drive chip select active-low, send the write
opcode 0x40 | ((dev & 0x7) << 1), the register address reg & 0x1f and the
data byte data & 0xff over SPI, then release chip select.  The masks are
modelled as mod 8 / 32 / 256, exact for arbitrary Python integers. -/
def write_register (m : MCPState) (dev reg data : Int) : MCPState :=
  let port := Port.set_pins (Port.set_pin_value m.spi.port m.cs 0) true
  let spi := SPI.send_byte { m.spi with port := port }
      (0x40 ||| ((dev % 8).toNat <<< 1))
  let spi := SPI.send_byte spi (reg % 32).toNat
  let spi := SPI.send_byte spi (data % 256).toNat
  let port := Port.set_pins (Port.set_pin_value spi.port m.cs 1) true
  let frame : Nat × Nat × Nat := ((dev % 8).toNat, (reg % 32).toNat, (data % 256).toNat)
  { m with spi := { spi with port := port }, reg_writes := m.reg_writes ++ [frame] }

/-- MCP23S17.read_register: drive chip select active-low, send the read
opcode 0x41 | ((dev & 0x7) << 1) and the register address reg & 0x1f,
receive one byte over SPI, release chip select and return the byte.
`ins` supplies the link input snapshots consumed by receive_byte. -/
def read_register (m : MCPState) (dev reg : Int) (ins : Nat → Nat) :
    MCPState × Nat :=
  let port := Port.set_pins (Port.set_pin_value m.spi.port m.cs 0) true
  let spi := SPI.send_byte { m.spi with port := port }
      (0x41 ||| ((dev % 8).toNat <<< 1))
  let spi := SPI.send_byte spi (reg % 32).toNat
  let (spi, val) := SPI.receive_byte spi ins
  let port := Port.set_pins (Port.set_pin_value spi.port m.cs 1) true
  ({ m with spi := { spi with port := port } }, val)

/-- MCP23S17.__init__: resolve and validate the chip-select and reset
pins (existence, five pairwise distinct pin numbers, output direction),
construct the SPI layer, hardware-reset the devices and issue the single
HAEN broadcast write: write_register(0, 0xa, 0x88). -/
def init (port : PortState) (pin_ck pin_txd pin_rxd pin_cs pin_reset : Int) :
    Except String MCPState :=
  match Port.get_pin_object port pin_cs, Port.get_pin_object port pin_reset with
  | some csp, some rstp =>
    if ¬ (pin_ck ≠ pin_txd ∧ pin_ck ≠ pin_rxd ∧ pin_ck ≠ pin_cs ∧
          pin_ck ≠ pin_reset ∧ pin_txd ≠ pin_rxd ∧ pin_txd ≠ pin_cs ∧
          pin_txd ≠ pin_reset ∧ pin_rxd ≠ pin_cs ∧ pin_rxd ≠ pin_reset ∧
          pin_cs ≠ pin_reset) then
      .error "Pins must have unique pin numbers."
    else if ¬ (csp.is_output ∧ rstp.is_output) then
      .error "Pins do not have right in/out attribute."
    else
      match SPI.init port pin_ck pin_txd pin_rxd with
      | .error msg => .error msg
      | .ok spi =>
        let m : MCPState := { spi := spi, cs := pin_cs, rst := pin_reset,
                              reg_writes := [] }
        let m := reset_devices m
        let m := write_register m 0 0xa 0x88
        .ok m
  | _, _ => .error "Pin does not exist in the port."

end MCP23S17

namespace MainControl

/-- The 9-bit combination in MainControl._run_cb:
v = ((vh & 1) << 8) | (vl & 0xff), built from the low byte read from the
companion device's GPIOA and the high bit read from its GPIOB. -/
def combine9 (vl vh : Nat) : Nat := ((vh &&& 1) <<< 8) ||| (vl &&& 0xff)

/-- The iteration cap of the sampling loop in MainControl._run_cb
(for _ in range(40)). -/
def SAMPLE_CAP : Nat := 40

/-- The minimum number of collected samples before the convergence check
is evaluated (if len(l_outvalues) < 5: continue). -/
def MIN_SAMPLES : Nat := 5

/-- The body of the sampling loop of MainControl._run_cb, with the
physically-read values abstracted into the stream `vals` (the 9-bit value
observed at iteration k) and the wall-clock test abstracted into
`elapsedOk` (whether t2 - start_time has reached the 0.02 s minimum at
iteration k; real time itself is not modelled).  Each pass appends the
current value; the convergence check l[-1] == l[-3] == l[-5] runs only
once the elapsed-time and sample-count guards pass, and a successful
check leaves the loop early. -/
def sampler_go (vals : Nat → Nat) (elapsedOk : Nat → Bool) :
    Nat → Nat → List Nat → List Nat
  | 0, _, acc => acc
  | fuel + 1, k, acc =>
    let acc2 := acc ++ [vals k]
    if elapsedOk k = false then sampler_go vals elapsedOk fuel (k + 1) acc2
    else if acc2.length < MIN_SAMPLES then sampler_go vals elapsedOk fuel (k + 1) acc2
    else if acc2.getD (acc2.length - 1) 0 = acc2.getD (acc2.length - 3) 0 ∧
        acc2.getD (acc2.length - 3) 0 = acc2.getD (acc2.length - 5) 0 then acc2
    else sampler_go vals elapsedOk fuel (k + 1) acc2

/-- The full sampling loop of MainControl._run_cb: up to SAMPLE_CAP
iterations starting from an empty sample list. -/
def collect_samples (vals : Nat → Nat) (elapsedOk : Nat → Bool) : List Nat :=
  sampler_go vals elapsedOk SAMPLE_CAP 0 []

/-- The condition under which iteration k of the sampling loop stops:
the elapsed-time guard passes, at least MIN_SAMPLES samples have been
collected (k + 1 counting the current one), and the newest value equals
the value two iterations earlier and the value four iterations earlier. -/
def stops_at (vals : Nat → Nat) (elapsedOk : Nat → Bool) (k : Nat) : Prop :=
  elapsedOk k = true ∧ MIN_SAMPLES ≤ k + 1 ∧
    vals k = vals (k - 2) ∧ vals (k - 2) = vals (k - 4)

instance (vals : Nat → Nat) (elapsedOk : Nat → Bool) (k : Nat) :
    Decidable (stops_at vals elapsedOk k) := by
  unfold stops_at; infer_instance

/-- The post-processing at the end of MainControl._run_cb, applied to the
last collected raw value y: for subtraction with a true negative result
the value is reconverted from two's complement, y = -((~y + 1) & 0xff)
(with Python ~y = -y - 1); for subtraction with a non-negative true
result the low byte y & 0xff is taken; for addition y is left unchanged. -/
def decode_result (is_plus : Bool) (a b y : Int) : Int :=
  if ¬ is_plus then
    if a - b < 0 then -((-y - 1 + 1) % 256)
    else y % 256
  else y

end MainControl

/-! Specification-side notions used to state the claims, and concrete
fixtures (the pin wiring of the calculator application, shared by
MCP23S17.py's and Summer2019Calculator.py's entry points). -/

/-- The active-mask of a pin list: the bitwise or of 1 shifted by each
pin's number over all pins of the list. -/
def active_mask (pins : List IOPin) : Nat :=
  pins.foldl (fun m p => m ||| (1 <<< p.no.toNat)) 0

/-- The pin numbers of the proper IOPin entries of a constructor
argument list, in order. -/
def pin_nos (entries : List PinEntry) : List Int :=
  entries.filterMap (fun e => match e with | .pin p => some p.no | .notPin => none)

/-- The or-accumulated bit mask of a list of pin numbers (the running
active_pin_mask of Port.__init__ once the numbers in `seen` have been
registered). -/
def mask_nos (seen : List Int) : Nat :=
  seen.foldr (fun x m => m ||| (1 <<< x.toNat)) 0

/-- All pins of a list have numbers in the valid range 0-7. -/
def pins_in_range (pins : List IOPin) : Prop :=
  ∀ p ∈ pins, 0 ≤ p.no ∧ p.no < 8

instance (pins : List IOPin) : Decidable (pins_in_range pins) := by
  unfold pins_in_range; infer_instance

/-- Some pin of the list is an output pin with the given pin number. -/
def has_out_pin (pins : List IOPin) (n : Int) : Prop :=
  ∃ q ∈ pins, q.no = n ∧ q.is_output = true

instance (pins : List IOPin) (n : Int) : Decidable (has_out_pin pins n) := by
  unfold has_out_pin; infer_instance

/-- A caller-driven sequence of buffered set_pins calls: before each
call the caller has set the output pins to a new state (the Python
callers mutate pin values through the shared IOPin objects and then call
set_pins(flush=False)). -/
def set_pins_seq (updates : List (List IOPin)) (s : PortState) : PortState :=
  updates.foldl (fun s u => Port.set_pins { s with pin_list := u } false) s

/-- An inert empty port, used only as the never-taken fallback when a
fixture is extracted from a constructor known to succeed. -/
def fallbackPort : PortState :=
  { pin_list := [], debug_mode := true, txd_buf := [], signal_history := [],
    debug_read_data := 0, output_pins := 0, input_pins := 0, writes := [] }

/-- The calculator's pin definition list (Summer2019Calculator.MainControl
and the MCP23S17 / FTDIAsyncBB main blocks): reset on pin 5, chip select
on pin 3, SPI clock on 0, transmit data on 1, receive data on 2. -/
def calcPins : List PinEntry :=
  [.pin (IOPin.make 5 "/RESET" true 1), .pin (IOPin.make 3 "/CS" true 1),
   .pin (IOPin.make 0 "SCK" true 0), .pin (IOPin.make 1 "STXD" true 0),
   .pin (IOPin.make 2 "SRXD" false 0)]

/-- The calculator port constructed in simulation (debug) mode. -/
def portCalcSim : PortState :=
  ((Port.init (some calcPins) true).toOption).getD fallbackPort

/-- The calculator port constructed in hardware mode (the model tracks
the link writes of hardware mode; the physical open/reset of the link is
external). -/
def portCalcHW : PortState :=
  ((Port.init (some calcPins) false).toOption).getD fallbackPort

/-- A simulation-mode port state with one byte pending in the transmit
buffer: the calculator port right after one buffered set_pins call. -/
def portC2 : PortState := Port.set_pins portCalcSim false

/-- A hardware-mode port state with one byte pending in the transmit
buffer: the calculator port right after one buffered set_pins call. -/
def portHWpending : PortState := Port.set_pins portCalcHW false

/-- Sixteen buffered pin-state updates (the caller repeatedly sets the
single output pin high and calls set_pins(flush=False)). -/
def updatesC6 : List (List IOPin) :=
  List.replicate 16 [IOPin.make 1 "STXD" true 1]

/-- An inert SPI fallback. -/
def fallbackSPI : SPIState := { port := fallbackPort, ck := 0, txd := 1, rxd := 2 }

/-- The calculator SPI object over the hardware-mode port. -/
def spiCalc : SPIState :=
  ((SPI.init portCalcHW 0 1 2).toOption).getD fallbackSPI

/-- An inert MCP fallback. -/
def fallbackMCP : MCPState := { spi := fallbackSPI, cs := 3, rst := 5, reg_writes := [] }

/-- The calculator MCP23S17 object over the simulation-mode port. -/
def mcpCalc : MCPState :=
  ((MCP23S17.init portCalcSim 0 1 2 3 5).toOption).getD fallbackMCP

/-- The stream of 9-bit values observed by the sampling loop, built from
the low-byte stream (GPIOA of the input device) and the high-bit stream
(GPIOB) by the combination of MainControl._run_cb. -/
def sampler_stream (vl vh : Nat → Nat) : Nat → Nat :=
  fun k => MainControl.combine9 (vl k) (vh k)

/-! Infrastructure lemmas. -/

theorem testBit_natAndNot (a b k : Nat) :
    (natAndNot a b).testBit k = (a.testBit k && !(b.testBit k)) := by
  unfold natAndNot
  rw [Nat.testBit_xor, Nat.testBit_and]
  cases a.testBit k <;> cases b.testBit k <;> rfl

theorem and_one_bne_zero (x i : Nat) : ((x >>> i) &&& 1 != 0) = x.testBit i := by
  simp [Nat.testBit, Nat.and_comm]

example :
    Port.init (some [PinEntry.pin (IOPin.make 0 "SCK" true 0)]) true =
      .ok { pin_list := [IOPin.make 0 "SCK" true 0], debug_mode := true,
            txd_buf := [], signal_history := [0], debug_read_data := 0,
            output_pins := 1, input_pins := 0, writes := [] } := by
  rfl

/-- Sanity anchor mirroring test_FTDIAsyncBB.test_data_send: after
construction of the calculator port exactly one flush has occurred,
carrying the single byte 0x28 (reset and chip-select pins high). -/
example : portCalcSim.signal_history = [0x28] ∧ portCalcSim.txd_buf = [] := by
  decide

/-- Sanity anchor mirroring test_FTDIAsyncBB.test_pin_mask. -/
example : portCalcSim.output_pins = 0x2b ∧ portCalcSim.input_pins = 4 := by
  decide

/-- The pin list is updated the same way by both branches of get_pins:
from the injected debug value in debug mode, from the link snapshot in
hardware mode. -/
theorem get_pins_pin_list (s : PortState) (link_input : Nat) :
    (Port.get_pins s link_input).pin_list =
      Port.update_input_pins s.pin_list
        (if s.debug_mode then s.debug_read_data else link_input) := by
  unfold Port.get_pins Port.flush_txbuf
  cases h : s.debug_mode <;> simp [h]
  split <;> rfl

theorem getD_range_map (vals : Nat → Nat) (n i : Nat) (h : i < n) :
    ((List.range n).map vals).getD i 0 = vals i := by
  rw [List.getD_eq_getElem _ _ (by simpa using h)]
  simp

/-- Characterization of the sampling loop of MainControl._run_cb,
generalized over the remaining fuel and the iteration counter: starting
from the samples of the first k iterations, the loop returns the samples
of the first m iterations for some m that exceeds k by at least one (when
fuel remains) and by at most the fuel; no iteration before m - 1
satisfies the stop condition, and if the loop ended before exhausting the
fuel then iteration m - 1 satisfies it. -/
theorem sampler_go_spec (vals : Nat → Nat) (e : Nat → Bool) :
    ∀ fuel k, ∃ m,
      MainControl.sampler_go vals e fuel k ((List.range k).map vals) =
        (List.range m).map vals ∧
      k ≤ m ∧ m ≤ k + fuel ∧ (0 < fuel → k < m) ∧
      (∀ j, k ≤ j → j + 1 < m → ¬ MainControl.stops_at vals e j) ∧
      (m < k + fuel → MainControl.stops_at vals e (m - 1)) := by
  intro fuel
  induction fuel with
  | zero =>
    intro k
    refine ⟨k, rfl, le_rfl, by omega, by omega, ?_, ?_⟩
    · intro j hj hj2; exact ((by omega : False)).elim
    · intro hm; exact ((by omega : False)).elim
  | succ fuel ih =>
    intro k
    have hacc : ((List.range k).map vals) ++ [vals k] =
        (List.range (k + 1)).map vals := by
      rw [List.range_succ, List.map_append]; rfl
    have hlen : ((List.range (k + 1)).map vals).length = k + 1 := by simp
    simp only [MainControl.sampler_go, hacc]
    by_cases he : e k = false
    · rw [if_pos he]
      obtain ⟨m, h1, h2, h3, h4, h5, h6⟩ := ih (k + 1)
      refine ⟨m, h1, by omega, by omega, by omega, ?_, fun hm => h6 (by omega)⟩
      intro j hj hj2
      rcases Nat.lt_or_ge j (k + 1) with hk | hk
      · have hjk : j = k := by omega
        subst hjk
        intro hs
        obtain ⟨hs1, _⟩ := hs
        rw [he] at hs1
        exact absurd hs1 (by simp)
      · exact h5 j hk hj2
    · rw [if_neg he]
      have het : e k = true := by revert he; cases e k <;> simp
      by_cases hlt :
          ((List.range (k + 1)).map vals).length < MainControl.MIN_SAMPLES
      · rw [if_pos hlt]
        have hk5 : k + 1 < 5 := by
          rw [hlen] at hlt; simpa [MainControl.MIN_SAMPLES] using hlt
        obtain ⟨m, h1, h2, h3, h4, h5, h6⟩ := ih (k + 1)
        refine ⟨m, h1, by omega, by omega, by omega, ?_, fun hm => h6 (by omega)⟩
        intro j hj hj2
        rcases Nat.lt_or_ge j (k + 1) with hk | hk
        · have hjk : j = k := by omega
          subst hjk
          intro hs
          obtain ⟨_, hs2, _⟩ := hs
          rw [MainControl.MIN_SAMPLES] at hs2
          omega
        · exact h5 j hk hj2
      · rw [if_neg hlt]
        have hk5 : 5 ≤ k + 1 := by
          rw [hlen] at hlt; simpa [MainControl.MIN_SAMPLES] using hlt
        have e1 : ((List.range (k + 1)).map vals).getD
            (((List.range (k + 1)).map vals).length - 1) 0 = vals k := by
          rw [hlen, show k + 1 - 1 = k from by omega]
          exact getD_range_map vals (k + 1) k (by omega)
        have e3 : ((List.range (k + 1)).map vals).getD
            (((List.range (k + 1)).map vals).length - 3) 0 = vals (k - 2) := by
          rw [hlen, show k + 1 - 3 = k - 2 from by omega]
          exact getD_range_map vals (k + 1) (k - 2) (by omega)
        have e5 : ((List.range (k + 1)).map vals).getD
            (((List.range (k + 1)).map vals).length - 5) 0 = vals (k - 4) := by
          rw [hlen, show k + 1 - 5 = k - 4 from by omega]
          exact getD_range_map vals (k + 1) (k - 4) (by omega)
        by_cases heq : vals k = vals (k - 2) ∧ vals (k - 2) = vals (k - 4)
        · rw [if_pos (by rw [e1, e3, e5]; exact heq)]
          refine ⟨k + 1, rfl, by omega, by omega, by omega, ?_, ?_⟩
          · intro j hj hj2; exact ((by omega : False)).elim
          · intro _
            have hidx : k + 1 - 1 = k := by omega
            rw [hidx]
            exact ⟨het, by rw [MainControl.MIN_SAMPLES]; omega, heq.1, heq.2⟩
        · rw [if_neg (by rw [e1, e3, e5]; exact heq)]
          obtain ⟨m, h1, h2, h3, h4, h5, h6⟩ := ih (k + 1)
          refine ⟨m, h1, by omega, by omega, by omega, ?_, fun hm => h6 (by omega)⟩
          intro j hj hj2
          rcases Nat.lt_or_ge j (k + 1) with hk | hk
          · have hjk : j = k := by omega
            subst hjk
            intro hs
            obtain ⟨_, _, hs3, hs4⟩ := hs
            exact heq ⟨hs3, hs4⟩
          · exact h5 j hk hj2

/-! Claim C5. -/

/-- C5: for every pair of register-value streams and every elapsed-time
behaviour, the sampling loop collects between 1 and SAMPLE_CAP = 40
samples, each being the 9-bit combination of the low byte and the high
bit read at that iteration; no iteration before the last satisfies the
stop condition (elapsed-time guard passed, at least 5 samples collected,
and the newest value equal to the values 2 and 4 iterations earlier); if
fewer than 40 samples were collected then the last iteration satisfies
the stop condition; and the value used as the result is the last
collected sample, whether or not convergence was reached. -/
theorem C5_sampling_loop (vl vh : Nat → Nat) (e : Nat → Bool) :
    1 ≤ (MainControl.collect_samples (sampler_stream vl vh) e).length ∧
    (MainControl.collect_samples (sampler_stream vl vh) e).length ≤
      MainControl.SAMPLE_CAP ∧
    MainControl.collect_samples (sampler_stream vl vh) e =
      (List.range (MainControl.collect_samples (sampler_stream vl vh) e).length).map
        (sampler_stream vl vh) ∧
    (∀ k, k + 1 < (MainControl.collect_samples (sampler_stream vl vh) e).length →
      ¬ MainControl.stops_at (sampler_stream vl vh) e k) ∧
    ((MainControl.collect_samples (sampler_stream vl vh) e).length <
        MainControl.SAMPLE_CAP →
      MainControl.stops_at (sampler_stream vl vh) e
        ((MainControl.collect_samples (sampler_stream vl vh) e).length - 1)) ∧
    (MainControl.collect_samples (sampler_stream vl vh) e).getD
        ((MainControl.collect_samples (sampler_stream vl vh) e).length - 1) 0 =
      sampler_stream vl vh
        ((MainControl.collect_samples (sampler_stream vl vh) e).length - 1) := by
  obtain ⟨m, h1, h2, h3, h4, h5, h6⟩ :=
    sampler_go_spec (sampler_stream vl vh) e MainControl.SAMPLE_CAP 0
  simp only [List.range_zero, List.map_nil] at h1
  have hL : MainControl.collect_samples (sampler_stream vl vh) e =
      (List.range m).map (sampler_stream vl vh) := h1
  have hlen : (MainControl.collect_samples (sampler_stream vl vh) e).length = m := by
    rw [hL]; simp
  have hm1 : 1 ≤ m := h4 (by rw [MainControl.SAMPLE_CAP]; omega)
  refine ⟨by omega, by omega, ?_, ?_, ?_, ?_⟩
  · rw [hlen]; exact hL
  · intro k hk; exact h5 k (by omega) (by omega)
  · intro hcap; rw [hlen]; exact h6 (by omega)
  · rw [hlen, hL]
    exact getD_range_map (sampler_stream vl vh) m (m - 1) (by omega)

/-- C5 (witness): with low-byte samples 1,2,2,3,2,5,5,5,5,5,... (high bit
zero) and the elapsed-time guard always passed, the loop stops with
exactly 10 samples, at the first iteration whose newest value equals the
values 2 and 4 iterations earlier (the 5s at iterations 9, 7 and 5), not
earlier despite the two consecutive 2s. -/
theorem C5_sampling_loop_witness :
    MainControl.collect_samples
        (sampler_stream (fun k => [1, 2, 2, 3, 2, 5, 5, 5].getD k 5) (fun _ => 0))
        (fun _ => true) =
      [1, 2, 2, 3, 2, 5, 5, 5, 5, 5] := by
  have h := (C5_sampling_loop
    (fun k => [1, 2, 2, 3, 2, 5, 5, 5].getD k 5) (fun _ => 0) (fun _ => true)).2.2.1
  rw [h]
  decide

/-! Claim C6. -/

/-- As long as the transmit buffer stays strictly below TXD_PACKET_MAX,
a sequence of buffered set_pins calls only appends the assembled bytes to
the buffer: no link write, no signal-history change. -/
theorem set_pins_seq_partial :
    ∀ (updates : List (List IOPin)) (s : PortState),
      s.txd_buf.length + updates.length < TXD_PACKET_MAX →
      (set_pins_seq updates s).writes = s.writes ∧
      (set_pins_seq updates s).txd_buf =
        s.txd_buf ++ updates.map Port.assemble_write_data ∧
      (set_pins_seq updates s).signal_history = s.signal_history ∧
      (set_pins_seq updates s).debug_mode = s.debug_mode := by
  intro updates
  induction updates with
  | nil => intro s h; simp [set_pins_seq]
  | cons u rest ih =>
    intro s h
    have hlen : s.txd_buf.length + rest.length + 1 < TXD_PACKET_MAX := by
      simp at h; omega
    have hstep : Port.set_pins { s with pin_list := u } false =
        { s with
            pin_list := u,
            txd_buf := s.txd_buf ++ [Port.assemble_write_data u] } := by
      unfold Port.set_pins
      rw [if_neg ?_]
      simp only [Bool.false_or, decide_eq_true_eq, List.length_append,
        List.length_singleton]
      rw [TXD_PACKET_MAX] at hlen ⊢
      omega
    have hrec := ih
      { s with
          pin_list := u,
          txd_buf := s.txd_buf ++ [Port.assemble_write_data u] } (by simp; omega)
    simp only [set_pins_seq, List.foldl_cons] at hrec ⊢
    rw [hstep]
    refine ⟨hrec.1, ?_, hrec.2.2.1, hrec.2.2.2⟩
    rw [hrec.2.1]
    simp

/-- C6: starting from an empty transmit buffer on a hardware-mode port,
fewer than TXD_PACKET_MAX = 16 buffered set_pins calls issue no link
write and leave the assembled bytes pending, and the call that brings the
buffered count to exactly 16 issues exactly one link write carrying all
16 buffered bytes and leaves the buffer empty. -/
theorem C6_txbuf_packet_flush (s : PortState) (updates : List (List IOPin))
    (hd : s.debug_mode = false) (hb : s.txd_buf = []) :
    (updates.length < TXD_PACKET_MAX →
      (set_pins_seq updates s).writes = s.writes ∧
      (set_pins_seq updates s).txd_buf = updates.map Port.assemble_write_data) ∧
    (updates.length = TXD_PACKET_MAX →
      (set_pins_seq updates s).writes =
        s.writes ++ [updates.map Port.assemble_write_data] ∧
      (set_pins_seq updates s).txd_buf = []) := by
  constructor
  · intro hlen
    have h := set_pins_seq_partial updates s (by rw [hb]; simpa using hlen)
    exact ⟨h.1, by rw [h.2.1, hb]; simp⟩
  · intro hlen
    rcases List.eq_nil_or_concat updates with hnil | ⟨front, u, hu⟩
    · rw [hnil] at hlen; rw [TXD_PACKET_MAX] at hlen; simp at hlen
    · subst hu
      have hfl : front.length = 15 := by
        rw [List.concat_eq_append] at hlen
        rw [TXD_PACKET_MAX] at hlen
        simp at hlen
        omega
      have hpart := set_pins_seq_partial front s
        (by rw [hb, TXD_PACKET_MAX]; simp; omega)
      have hseq : set_pins_seq (front.concat u) s =
          Port.set_pins { (set_pins_seq front s) with pin_list := u } false := by
        unfold set_pins_seq
        rw [List.concat_eq_append, List.foldl_append]
        rfl
      obtain ⟨hw, hbuf, hhist, hdm⟩ := hpart
      have hbl : (set_pins_seq front s).txd_buf.length = 15 := by
        rw [hbuf, hb]; simp [hfl]
      rw [hseq]
      unfold Port.set_pins
      rw [if_pos ?_]
      · unfold Port.flush_txbuf
        rw [if_neg (by simp)]
        simp only []
        constructor
        · simp only [List.append_ne_nil_of_right_ne_nil, hdm, hd]
          rw [hw, hbuf, hb]
          simp
        · trivial
      · simp only [Bool.false_or, decide_eq_true_eq, List.length_append,
          List.length_singleton, hbl]
        rw [TXD_PACKET_MAX]

/-- C6 (witness): sixteen buffered set_pins calls on the freshly
constructed hardware-mode calculator port produce exactly one link write
of the sixteen assembled bytes and leave the buffer empty. -/
theorem C6_txbuf_packet_flush_witness :
    (set_pins_seq updatesC6 portCalcHW).writes =
      portCalcHW.writes ++ [updatesC6.map Port.assemble_write_data] ∧
    (set_pins_seq updatesC6 portCalcHW).txd_buf = [] :=
  (C6_txbuf_packet_flush portCalcHW updatesC6 (by decide) (by decide)).2 (by decide)

/-! Claim C8. -/

theorem testBit_mask_nos (seen : List Int) (k : Nat) :
    (mask_nos seen).testBit k = seen.any (fun x => x.toNat == k) := by
  induction seen with
  | nil => simp [mask_nos]
  | cons x rest ih =>
    show ((mask_nos rest) ||| (1 <<< x.toNat)).testBit k = _
    rw [Nat.testBit_or, ih, Nat.shiftLeft_eq, one_mul, Nat.testBit_two_pow,
      List.any_cons]
    by_cases hxk : x.toNat = k <;> simp [hxk]

theorem pin_nos_cons (p : IOPin) (rest : List PinEntry) :
    pin_nos (PinEntry.pin p :: rest) = p.no :: pin_nos rest := rfl

/-- The duplicate test of Port.__init__: with the pin numbers seen so far
registered in the running mask, the test (1 << no) & mask detects exactly
membership of the new number among the seen ones (all in range 0-7). -/
theorem mask_mem (seen : List Int) (n : Int) (hn : 0 ≤ n ∧ n < 8)
    (hseen : ∀ x ∈ seen, 0 ≤ x ∧ x < 8) :
    ((1 <<< n.toNat) &&& mask_nos seen ≠ 0) ↔ n ∈ seen := by
  rw [Nat.shiftLeft_eq, one_mul, Nat.and_comm, Nat.and_two_pow, testBit_mask_nos]
  constructor
  · intro h
    have hany : seen.any (fun x => x.toNat == n.toNat) = true := by
      by_contra hc
      rw [Bool.not_eq_true] at hc
      rw [hc] at h
      simp at h
    obtain ⟨x, hx, hxe⟩ := List.any_eq_true.mp hany
    have hxr := hseen x hx
    have hxn : x = n := by
      have : x.toNat = n.toNat := by simpa using hxe
      omega
    rwa [← hxn]
  · intro h
    rw [List.any_eq_true.mpr ⟨n, h, by simp⟩]
    simp [Nat.pow_eq_zero]

/-- The per-pin validation loop of Port.__init__ succeeds exactly when no
entry is a non-pin, every pin number lies in 0-7, the pin numbers are
pairwise distinct, and none of them collides with a number already
registered in the running mask. -/
theorem process_pins_ok_iff :
    ∀ (entries : List PinEntry) (seen : List Int) (output : Nat),
      (∀ x ∈ seen, 0 ≤ x ∧ x < 8) →
      ((∃ r, Port.process_pins entries (mask_nos seen) output = .ok r) ↔
        ((¬ PinEntry.notPin ∈ entries) ∧
         (∀ p, PinEntry.pin p ∈ entries → 0 ≤ p.no ∧ p.no < 8) ∧
         (pin_nos entries).Nodup ∧
         (∀ x ∈ pin_nos entries, x ∉ seen))) := by
  intro entries
  induction entries with
  | nil =>
    intro seen output hseen
    simp [Port.process_pins, pin_nos]
  | cons e rest ih =>
    intro seen output hseen
    cases e with
    | notPin => simp [Port.process_pins]
    | pin p =>
      rw [Port.process_pins]
      by_cases hr : 0 ≤ p.no ∧ p.no < 8
      · rw [if_neg (by simpa using hr)]
        by_cases hm : (1 <<< p.no.toNat) &&& mask_nos seen ≠ 0
        · rw [if_pos hm]
          have hmem := (mask_mem seen p.no hr hseen).mp hm
          refine iff_of_false ?_ ?_
          · rintro ⟨r, hr2⟩
            exact Except.noConfusion hr2
          · intro hcon
            exact absurd hmem (hcon.2.2.2 p.no
              (by rw [pin_nos_cons]; exact List.mem_cons_self _ _))
        · rw [if_neg hm]
          have hnot := fun h => hm ((mask_mem seen p.no hr hseen).mpr h)
          have hmask : mask_nos seen ||| (1 <<< p.no.toNat) =
              mask_nos (p.no :: seen) := rfl
          rw [hmask]
          have ihr := ih (p.no :: seen) (if p.is_output then output |||
            (1 <<< p.no.toNat) else output)
            (by intro x hx; rcases List.mem_cons.mp hx with h | h
                · rw [h]; exact hr
                · exact hseen x h)
          constructor
          · intro hok
            obtain ⟨r, hrr⟩ := hok
            have hrest : ∃ r2, Port.process_pins rest (mask_nos (p.no :: seen))
                (if p.is_output then output ||| (1 <<< p.no.toNat) else output) =
                  .ok r2 := by
              cases hrest2 : Port.process_pins rest (mask_nos (p.no :: seen))
                  (if p.is_output then output ||| (1 <<< p.no.toNat) else output) with
              | error msg => rw [hrest2] at hrr; simp at hrr
              | ok r2 => exact ⟨r2, rfl⟩
            obtain ⟨hA, hB, hC, hD⟩ := ihr.mp hrest
            refine ⟨by simpa using hA, ?_, ?_, ?_⟩
            · intro q hq
              rcases List.mem_cons.mp hq with h | h
              · cases h; exact hr
              · exact hB q h
            · show (p.no :: pin_nos rest).Nodup
              refine List.nodup_cons.mpr ⟨?_, hC⟩
              intro hcon
              exact absurd (List.mem_cons_self p.no seen) (hD p.no hcon)
            · intro x hx
              rcases List.mem_cons.mp (show x ∈ p.no :: pin_nos rest from hx)
                  with h | h
              · rw [h]; exact hnot
              · intro hxs
                exact hD x h (List.mem_cons_of_mem _ hxs)
          · intro ⟨hA, hB, hC, hD⟩
            have hrest := ihr.mpr ⟨by simpa using hA, fun q hq =>
              hB q (List.mem_cons_of_mem _ hq), (List.nodup_cons.mp
                (show (p.no :: pin_nos rest).Nodup from hC)).2, ?_⟩
            · obtain ⟨r2, hr2⟩ := hrest
              exact ⟨_, by rw [hr2]⟩
            · intro x hx hxs
              rcases List.mem_cons.mp hxs with h | h
              · exact (List.nodup_cons.mp
                  (show (p.no :: pin_nos rest).Nodup from hC)).1 (h ▸ hx)
              · exact hD x (show x ∈ p.no :: pin_nos rest from
                  List.mem_cons_of_mem _ hx) h
      · rw [if_pos (by simpa using hr)]
        refine iff_of_false ?_ ?_
        · rintro ⟨r, hr2⟩
          exact Except.noConfusion hr2
        · intro hcon
          exact hr (hcon.2.1 p (List.mem_cons_self _ _))

/-- C8: in simulation mode, Port construction fails (with a ValueError
and no usable object, modelled as an error result) exactly when the pin
list is missing or empty, contains a non-pin entry, contains a pin number
outside 0-7, or contains two pins with the same number; these are the
only failure conditions. -/
theorem C8_port_validation (pl : Option (List PinEntry)) :
    (∃ s, Port.init pl true = .ok s) ↔
      ¬ (pl = none ∨
         ∃ entries, pl = some entries ∧
           (entries = [] ∨ PinEntry.notPin ∈ entries ∨
            (∃ p, PinEntry.pin p ∈ entries ∧ ¬ (0 ≤ p.no ∧ p.no < 8)) ∨
            ¬ (pin_nos entries).Nodup)) := by
  cases pl with
  | none => simp [Port.init]
  | some entries =>
    rw [Port.init]
    by_cases he : entries.length = 0
    · rw [if_pos he]
      rw [List.length_eq_zero] at he
      subst he
      simp
    · rw [if_neg he]
      have h := process_pins_ok_iff entries [] 0 (by simp)
      have hm0 : mask_nos ([] : List Int) = 0 := rfl
      rw [hm0] at h
      cases hp : Port.process_pins entries 0 0 with
      | error msg =>
        rw [hp] at h
        have hnc : ¬ ((¬ PinEntry.notPin ∈ entries) ∧
            (∀ p, PinEntry.pin p ∈ entries → 0 ≤ p.no ∧ p.no < 8) ∧
            (pin_nos entries).Nodup ∧
            (∀ x ∈ pin_nos entries, x ∉ ([] : List Int))) := by
          intro hc
          obtain ⟨r, hr⟩ := h.mpr hc
          exact Except.noConfusion hr
        have hdisj : PinEntry.notPin ∈ entries ∨
            (∃ p, PinEntry.pin p ∈ entries ∧ ¬ (0 ≤ p.no ∧ p.no < 8)) ∨
            ¬ (pin_nos entries).Nodup := by
          by_contra hno
          push_neg at hno
          exact hnc ⟨hno.1, fun p hp2 => hno.2.1 p hp2, hno.2.2, by simp⟩
        refine iff_of_false ?_ ?_
        · rintro ⟨s, hs⟩
          exact Except.noConfusion hs
        · intro hni
          exact hni (Or.inr ⟨entries, rfl, Or.inr hdisj⟩)
      | ok r =>
        obtain ⟨pins, a2, o2⟩ := r
        rw [hp] at h
        have hconj := h.mp ⟨(pins, a2, o2), rfl⟩
        refine iff_of_true ⟨_, rfl⟩ ?_
        intro hcon
        rcases hcon with hn | ⟨entries2, heq, hdisj⟩
        · exact Option.noConfusion hn
        · have he2 : entries2 = entries := by
            injection heq.symm
          subst he2
          rcases hdisj with h1 | h2 | ⟨p, hp2, hp3⟩ | h4
          · exact he (by rw [h1]; rfl)
          · exact hconj.1 h2
          · exact hp3 (hconj.2.1 p hp2)
          · exact h4 hconj.2.2.1

/-- C8 (witness): the calculator pin list satisfies none of the failure
conditions, so its simulation-mode construction is accepted. -/
theorem C8_port_validation_witness :
    ∃ s, Port.init (some calcPins) true = .ok s :=
  (C8_port_validation (some calcPins)).mpr (by
    intro hcon
    rcases hcon with hn | ⟨entries, heq, hd⟩
    · exact Option.noConfusion hn
    · have he2 : entries = calcPins := by injection heq.symm
      subst he2
      rcases hd with h | h | ⟨p, hp, hr⟩ | h
      · exact absurd h (by decide)
      · exact absurd h (by decide)
      · simp only [calcPins, List.mem_cons, List.not_mem_nil, or_false] at hp
        rcases hp with h | h | h | h | h <;>
          (injection h with h2; rw [h2] at hr; exact hr (by decide))
      · exact absurd h (by decide))

/-! Claim C7. -/

theorem and_natAndNot (o a : Nat) : o &&& natAndNot a o = 0 := by
  apply Nat.eq_of_testBit_eq
  intro k
  rw [Nat.testBit_land, testBit_natAndNot, Nat.zero_testBit]
  cases o.testBit k <;> cases a.testBit k <;> rfl

theorem or_natAndNot (o a : Nat) (h : o &&& a = o) :
    o ||| natAndNot a o = a := by
  apply Nat.eq_of_testBit_eq
  intro k
  have hk := congrArg (fun m => m.testBit k) h
  simp only [Nat.testBit_land] at hk
  rw [Nat.testBit_or, testBit_natAndNot]
  cases ho : o.testBit k <;> cases ha : a.testBit k <;>
    simp [ho, ha] at hk ⊢

theorem and_or_subset (o a m : Nat) (h : o &&& a = o) :
    (o ||| m) &&& (a ||| m) = (o ||| m) ∧ o &&& (a ||| m) = o := by
  constructor <;> apply Nat.eq_of_testBit_eq <;> intro k <;>
    have hk := congrArg (fun x => x.testBit k) h <;>
    simp only [Nat.testBit_land] at hk <;>
    simp only [Nat.testBit_land, Nat.testBit_or] <;>
    cases ho : o.testBit k <;> cases ha : a.testBit k <;>
      cases hm : m.testBit k <;> simp [ho, ha, hm] at hk ⊢

/-- Along a successful run of the validation loop of Port.__init__, the
final active mask is the running mask extended by one bit per accepted
pin, and the final output mask stays bitwise below the final active mask
whenever the initial masks are so related. -/
theorem process_pins_masks :
    ∀ (entries : List PinEntry) (active output : Nat) (ps : List IOPin)
      (a o : Nat),
      Port.process_pins entries active output = .ok (ps, a, o) →
      a = ps.foldl (fun m p => m ||| (1 <<< p.no.toNat)) active ∧
      (output &&& active = output → o &&& a = o) := by
  intro entries
  induction entries with
  | nil =>
    intro active output ps a o h
    rw [Port.process_pins] at h
    injection h with h2
    injection h2 with hps h3
    injection h3 with ha ho
    subst hps; subst ha; subst ho
    exact ⟨rfl, fun h => h⟩
  | cons e rest ih =>
    intro active output ps a o h
    cases e with
    | notPin => rw [Port.process_pins] at h; exact Except.noConfusion h
    | pin p =>
      rw [Port.process_pins] at h
      by_cases hr : 0 ≤ p.no ∧ p.no < 8
      case neg => rw [if_pos (by simpa using hr)] at h; exact Except.noConfusion h
      case pos =>
        rw [if_neg (by simpa using hr)] at h
        by_cases hm : (1 <<< p.no.toNat) &&& active ≠ 0
        · rw [if_pos hm] at h; exact Except.noConfusion h
        · rw [if_neg hm] at h
          cases hrest : Port.process_pins rest (active ||| (1 <<< p.no.toNat))
              (if p.is_output then output ||| (1 <<< p.no.toNat) else output) with
          | error msg => rw [hrest] at h; exact Except.noConfusion h
          | ok r2 =>
            obtain ⟨ps2, a2, o2⟩ := r2
            rw [hrest] at h
            injection h with h2
            injection h2 with hps h3
            injection h3 with ha ho
            subst ha; subst ho
            obtain ⟨iha, iho⟩ := ih (active ||| (1 <<< p.no.toNat))
              (if p.is_output then output ||| (1 <<< p.no.toNat) else output)
              ps2 a2 o2 hrest
            constructor
            · rw [← hps]
              simpa using iha
            · intro hsub
              apply iho
              cases hop : p.is_output with
              | true =>
                simpa using (and_or_subset output active (1 <<< p.no.toNat) hsub).1
              | false =>
                simpa using (and_or_subset output active (1 <<< p.no.toNat) hsub).2

theorem set_pins_preserves (s : PortState) (fl : Bool) :
    (Port.set_pins s fl).pin_list = s.pin_list ∧
    (Port.set_pins s fl).output_pins = s.output_pins ∧
    (Port.set_pins s fl).input_pins = s.input_pins := by
  simp only [Port.set_pins, Port.flush_txbuf]
  split <;> (try split) <;> simp

/-- C7: for every pin list accepted by Port construction (in either
mode), the computed output mask and input mask are disjoint, and their
union is the active mask: the or of 1 shifted by each pin's number over
all pins of the constructed port. -/
theorem C7_masks (pl : Option (List PinEntry)) (dm : Bool) (s : PortState)
    (h : Port.init pl dm = .ok s) :
    s.output_pins &&& s.input_pins = 0 ∧
    s.output_pins ||| s.input_pins = active_mask s.pin_list := by
  cases pl with
  | none => rw [Port.init] at h; exact Except.noConfusion h
  | some entries =>
    rw [Port.init] at h
    by_cases he : entries.length = 0
    · rw [if_pos he] at h; exact Except.noConfusion h
    · rw [if_neg he] at h
      cases hp : Port.process_pins entries 0 0 with
      | error msg => rw [hp] at h; exact Except.noConfusion h
      | ok r =>
        obtain ⟨pins, a2, o2⟩ := r
        rw [hp] at h
        injection h with h2
        obtain ⟨hmaska, hmasko⟩ := process_pins_masks entries 0 0 pins a2 o2 hp
        have hsub : o2 &&& a2 = o2 := hmasko (by simp)
        have hpres := set_pins_preserves
          { pin_list := pins, debug_mode := dm, txd_buf := [],
            signal_history := [], debug_read_data := 0,
            output_pins := o2, input_pins := natAndNot a2 o2,
            writes := [] } true
        rw [← h2]
        refine ⟨?_, ?_⟩
        · rw [hpres.2.1, hpres.2.2]
          exact and_natAndNot o2 a2
        · rw [hpres.2.1, hpres.2.2, hpres.1]
          show o2 ||| natAndNot a2 o2 = active_mask pins
          rw [or_natAndNot o2 a2 hsub, active_mask, hmaska]

/-- C7 (witness): the calculator port's masks are disjoint and union to
its active mask. -/
theorem C7_masks_witness :
    portCalcSim.output_pins &&& portCalcSim.input_pins = 0 ∧
    portCalcSim.output_pins ||| portCalcSim.input_pins =
      active_mask portCalcSim.pin_list :=
  C7_masks (some calcPins) true portCalcSim rfl

/-! Claim C1. -/

/-- C1 (counterexample): the claim requires the data byte of the single
broadcast IOCON write to set only the hardware-address-enable bit, which
with all control bits at their power-on default 0 means the byte 0x08;
but the calculator's MCP23S17 construction succeeds and writes the byte
0x88, whose bit 7 (the bank-addressing mode bit) is also set. -/
theorem C1_counterexample :
    MCP23S17.init portCalcSim 0 1 2 3 5 = .ok mcpCalc ∧
    mcpCalc.reg_writes.map (fun f => f.2.2) = [0x88] ∧
    (0x88 : Nat).testBit 7 = true ∧
    (0x88 : Nat) ≠ 0x08 := by
  refine ⟨rfl, rfl, by decide, by decide⟩

/-- C1 (amended): every successful MCP23S17 construction issues, after
the hardware reset sequence (chip select driven inactive-high, reset pin
low then high), exactly one broadcast register write, to device 0's
control register IOCON (0x0a), whose data byte is
0x88 = bank-mode bit (0x80) | hardware-address-enable bit (0x08): it sets
the hardware-address-enable bit and the bank-mode bit, leaving every
other control bit at its power-on default 0. -/
theorem C1_broadcast_write (port : PortState) (a b c d e : Int)
    (m : MCPState) (h : MCP23S17.init port a b c d e = .ok m) :
    m.reg_writes = [(0, 0x0a, 0x88)] ∧
    (0x88 : Nat) = 0x80 ||| 0x08 ∧
    (0x88 : Nat).testBit 3 = true ∧ (0x88 : Nat).testBit 7 = true ∧
    (∀ k, k ≠ 3 → k ≠ 7 → (0x88 : Nat).testBit k = false) := by
  refine ⟨?_, by decide, by decide, by decide, ?_⟩
  · rw [MCP23S17.init] at h
    cases hcs : Port.get_pin_object port d with
    | none => rw [hcs] at h; simp at h
    | some csp =>
      rw [hcs] at h
      cases hrst : Port.get_pin_object port e with
      | none => rw [hrst] at h; simp at h
      | some rstp =>
        rw [hrst] at h
        split at h
        next o1 o2 csp2 rstp2 heq1 heq2 =>
          split at h
          next hdist => simp at h
          next hdist =>
            split at h
            next hdir => simp at h
            next hdir =>
              cases hspi : SPI.init port a b c with
              | error msg => rw [hspi] at h; simp at h
              | ok spi =>
                rw [hspi] at h
                simp at h
                subst h
                simp only [MCP23S17.write_register, MCP23S17.reset_devices]
                decide
        next o1 o2 x => exact (x csp rstp rfl rfl).elim
  · intro k h3 h7
    by_cases hk : k < 8
    · interval_cases k <;> first | decide | exact absurd rfl h3 | exact absurd rfl h7
    · have h136 : (0x88 : Nat) < 2 ^ k := by
        calc (0x88 : Nat) < 2 ^ 8 := by decide
        _ ≤ 2 ^ k := Nat.pow_le_pow_right (by omega) (by omega)
      exact Nat.testBit_lt_two_pow h136

/-- C1 (witness for the amended theorem): applied to the calculator's
construction. -/
theorem C1_broadcast_write_witness :
    mcpCalc.reg_writes = [(0, 0x0a, 0x88)] ∧
    (0x88 : Nat) = 0x80 ||| 0x08 ∧
    (0x88 : Nat).testBit 3 = true ∧ (0x88 : Nat).testBit 7 = true ∧
    (∀ k, k ≠ 3 → k ≠ 7 → (0x88 : Nat).testBit k = false) :=
  C1_broadcast_write portCalcSim 0 1 2 3 5 mcpCalc rfl

/-! Claim C4. -/

theorem testBit_assemble_foldl (pins : List IOPin) (acc : Nat) (k : Nat) :
    (pins.foldl
      (fun val pin =>
        if pin.is_output && pin.value != 0 then val ||| (1 <<< pin.no.toNat)
        else val) acc).testBit k =
      (acc.testBit k ||
        pins.any (fun p => p.is_output && p.value != 0 && p.no.toNat == k)) := by
  induction pins generalizing acc with
  | nil => simp
  | cons p rest ih =>
    rw [List.foldl_cons, ih, List.any_cons]
    by_cases hp : (p.is_output && p.value != 0) = true
    · rw [if_pos hp, Nat.testBit_or, Nat.shiftLeft_eq, one_mul,
        Nat.testBit_two_pow, hp]
      by_cases hk : p.no.toNat = k <;>
        cases hacc : acc.testBit k <;> simp [hk]
    · rw [if_neg hp]
      rw [Bool.not_eq_true] at hp
      rw [hp]
      simp

theorem testBit_assemble (pins : List IOPin) (k : Nat) :
    (Port.assemble_write_data pins).testBit k =
      pins.any (fun p => p.is_output && p.value != 0 && p.no.toNat == k) := by
  rw [Port.assemble_write_data, testBit_assemble_foldl]
  simp

/-- Updating the value of the pin numbered n does not change any bit of
the assembled byte other than bit n. -/
theorem any_congr_mem {α : Type} (l : List α) (f g : α → Bool)
    (h : ∀ a ∈ l, f a = g a) : l.any f = l.any g := by
  induction l with
  | nil => rfl
  | cons a t ih =>
    rw [List.any_cons, List.any_cons, h a (by simp),
      ih (fun b hb => h b (by simp [hb]))]

theorem testBit_assemble_upd_ne (pins : List IOPin) (n : Int) (v : Nat)
    (k : Nat) (hk : k ≠ n.toNat) :
    (Port.assemble_write_data (Port.upd_pin n v pins)).testBit k =
      (Port.assemble_write_data pins).testBit k := by
  rw [testBit_assemble, testBit_assemble, Port.upd_pin, List.any_map]
  apply any_congr_mem
  intro p hp
  by_cases hpn : p.no = n
  · have hnk : ¬ n.toNat = k := fun h => hk h.symm
    have hbeq : (n.toNat == k) = false := by simp [hnk]
    simp [Function.comp, hpn, hbeq]
  · simp [Function.comp, hpn]

/-- Updating the value of an existing output pin numbered n sets bit n of
the assembled byte to exactly the (normalized) new value. -/
theorem testBit_assemble_upd_self (pins : List IOPin) (n : Int) (v : Nat)
    (hr : pins_in_range pins) (hn : 0 ≤ n)
    (hout : has_out_pin pins n) :
    (Port.assemble_write_data (Port.upd_pin n v pins)).testBit n.toNat =
      (v != 0) := by
  rw [testBit_assemble, Port.upd_pin, List.any_map]
  cases hv : (v != 0) with
  | false =>
    rw [List.any_eq_false]
    intro p hp
    by_cases hpn : p.no = n
    · simp [Function.comp, hpn, hv]
    · have hpr := hr p hp
      have : ¬ (p.no.toNat == n.toNat) = true := by
        simp only [beq_iff_eq]
        omega
      simp [Function.comp, hpn, this]
  | true =>
    rw [List.any_eq_true]
    obtain ⟨q, hq, hqn, hqout⟩ := hout
    refine ⟨q, hq, ?_⟩
    simp [Function.comp, hqn, hqout, hv]

@[simp]
theorem pins_in_range_upd (pins : List IOPin) (n : Int) (v : Nat) :
    pins_in_range (Port.upd_pin n v pins) ↔ pins_in_range pins := by
  unfold pins_in_range Port.upd_pin
  constructor
  · intro h p hp
    have := h _ (List.mem_map_of_mem _ hp)
    by_cases hpn : p.no = n <;> simpa [hpn] using this
  · intro h q hq
    obtain ⟨p, hp, rfl⟩ := List.mem_map.mp hq
    by_cases hpn : p.no = n <;> simpa [hpn] using h p hp

@[simp]
theorem has_out_pin_upd (pins : List IOPin) (n : Int) (v : Nat) (m : Int) :
    has_out_pin (Port.upd_pin n v pins) m ↔ has_out_pin pins m := by
  unfold has_out_pin Port.upd_pin
  constructor
  · intro ⟨q, hq, hqn, hqo⟩
    obtain ⟨p, hp, rfl⟩ := List.mem_map.mp hq
    by_cases hpn : p.no = n
    · exact ⟨p, hp, by simpa [hpn] using hqn, by simpa [hpn] using hqo⟩
    · exact ⟨p, hp, by simpa [hpn] using hqn, by simpa [hpn] using hqo⟩
  · intro ⟨q, hq, hqn, hqo⟩
    by_cases hpn : q.no = n
    · refine ⟨{ q with value := v }, ?_, hqn, hqo⟩
      have := List.mem_map_of_mem
        (fun p => if p.no = n then { p with value := v } else p) hq
      simpa [hpn] using this
    · refine ⟨q, ?_, hqn, hqo⟩
      have := List.mem_map_of_mem
        (fun p => if p.no = n then { p with value := v } else p) hq
      simpa [hpn] using this

/-- The two pin-state bytes buffered for one SPI bit: the clock-low byte
carries the data bit on the transmit pin with the clock bit low, and the
clock-high byte carries the same data bit with the clock bit high. -/
theorem send_bit_states (ckNo txdNo : Int) (v : Nat) (P : List IOPin)
    (hr : pins_in_range P) (hck : 0 ≤ ckNo ∧ ckNo < 8)
    (htx : 0 ≤ txdNo ∧ txdNo < 8) (hne : ckNo ≠ txdNo)
    (hock : has_out_pin P ckNo) (hotx : has_out_pin P txdNo) :
    (Port.assemble_write_data
      (Port.upd_pin txdNo v (Port.upd_pin ckNo 0 P))).testBit ckNo.toNat =
        false ∧
    (Port.assemble_write_data
      (Port.upd_pin txdNo v (Port.upd_pin ckNo 0 P))).testBit txdNo.toNat =
        (v != 0) ∧
    (Port.assemble_write_data (Port.upd_pin ckNo 1
      (Port.upd_pin txdNo v (Port.upd_pin ckNo 0 P)))).testBit ckNo.toNat =
        true ∧
    (Port.assemble_write_data (Port.upd_pin ckNo 1
      (Port.upd_pin txdNo v (Port.upd_pin ckNo 0 P)))).testBit txdNo.toNat =
        (v != 0) := by
  have hnat : ckNo.toNat ≠ txdNo.toNat := by omega
  have hr1 : pins_in_range (Port.upd_pin ckNo 0 P) := by simp [hr]
  have hr2 : pins_in_range (Port.upd_pin txdNo v (Port.upd_pin ckNo 0 P)) := by
    simp [hr]
  have ho1 : has_out_pin (Port.upd_pin ckNo 0 P) txdNo := by simp [hotx]
  have ho2 : has_out_pin (Port.upd_pin txdNo v (Port.upd_pin ckNo 0 P))
      ckNo := by simp [hock]
  refine ⟨?_, ?_, ?_, ?_⟩
  · rw [testBit_assemble_upd_ne _ _ _ _ hnat,
      testBit_assemble_upd_self P ckNo 0 hr hck.1 hock]
    decide
  · rw [testBit_assemble_upd_self _ txdNo v hr1 htx.1 ho1]
  · rw [testBit_assemble_upd_self _ ckNo 1 hr2 hck.1 ho2]
    decide
  · rw [testBit_assemble_upd_ne _ _ _ _ (Ne.symm hnat),
      testBit_assemble_upd_self _ txdNo v hr1 htx.1 ho1]

/-- A buffered set_pins call that stays below the packet maximum only
appends the assembled byte. -/
theorem set_pins_false_short (p : PortState) (h : p.txd_buf.length ≤ 14) :
    Port.set_pins p false =
      { p with
          txd_buf := p.txd_buf ++ [Port.assemble_write_data p.pin_list] } := by
  simp only [Port.set_pins, TXD_PACKET_MAX]
  rw [if_neg (by simp; omega)]

/-- A buffered set_pins call that brings the buffer to the packet
maximum triggers the automatic flush: in hardware mode the 16 buffered
bytes leave as one link write. -/
theorem set_pins_false_atmax (p : PortState) (h : p.txd_buf.length = 15)
    (hdm : p.debug_mode = false) :
    Port.set_pins p false =
      { p with
          txd_buf := [],
          signal_history := List.drop
            ((p.signal_history ++
              (p.txd_buf ++ [Port.assemble_write_data p.pin_list])).length -
              SIGNAL_LOG_SIZE)
            (p.signal_history ++
              (p.txd_buf ++ [Port.assemble_write_data p.pin_list])),
          writes := p.writes ++
            [p.txd_buf ++ [Port.assemble_write_data p.pin_list]] } := by
  simp only [Port.set_pins, Port.flush_txbuf, TXD_PACKET_MAX]
  rw [if_pos (by simp; omega), if_neg (by simp), hdm]
  simp

/-- A flushing set_pins call in hardware mode sends the whole buffer,
extended by the assembled byte, as one link write. -/
theorem set_pins_true_eq (p : PortState) (hdm : p.debug_mode = false) :
    Port.set_pins p true =
      { p with
          txd_buf := [],
          signal_history := List.drop
            ((p.signal_history ++
              (p.txd_buf ++ [Port.assemble_write_data p.pin_list])).length -
              SIGNAL_LOG_SIZE)
            (p.signal_history ++
              (p.txd_buf ++ [Port.assemble_write_data p.pin_list])),
          writes := p.writes ++
            [p.txd_buf ++ [Port.assemble_write_data p.pin_list]] } := by
  simp only [Port.set_pins, Port.flush_txbuf, TXD_PACKET_MAX]
  rw [if_pos (by simp), if_neg (by simp), hdm]
  simp

theorem getD_append_self {α : Type} (l1 l2 : List α) (d : α) :
    (l1 ++ l2).getD l1.length d = l2.getD 0 d := by
  rw [List.getD_eq_getElem?_getD, List.getD_eq_getElem?_getD,
    List.getElem?_append_right (le_refl _)]
  simp

theorem getD_append_self_succ {α : Type} (l1 l2 : List α) (d : α) :
    (l1 ++ l2).getD (l1.length + 1) d = l2.getD 1 d := by
  rw [List.getD_eq_getElem?_getD, List.getD_eq_getElem?_getD,
    List.getElem?_append_right (by omega)]
  simp

theorem beq_one_eq_decide (a : Nat) : (a == 1) = decide (a = 1) := by
  by_cases h : a = 1 <;> simp [h]

theorem shiftRight_mod_two_beq (x i : Nat) :
    ((x >>> i) % 2 == 1) = x.testBit i := by
  rw [beq_one_eq_decide, Nat.testBit_to_div_mod, Nat.shiftRight_eq_div_pow]

set_option maxRecDepth 40000 in
/-- C4 (amended): with the clock pin idle-low and an empty transmit
buffer on a hardware-mode port, send_byte(value) buffers two pin-states
per bit, most significant bit first (clock low together with the data
bit, then clock high), but the 16th buffered pin-state reaches the packet
maximum and triggers an automatic flush, so the call issues TWO link
writes, not one: first the 16 bit pin-states as one write, then the final
clock-low state as a second one-byte write, leaving the buffer empty.
The byte contents honor the data-settles-on-low / sampled-on-high
contract: in the 16-byte write, byte 2j carries clock low and data bit
7-j, and byte 2j+1 carries clock high with the same data bit; the final
byte carries clock low. -/
theorem C4_send_byte (spi : SPIState) (value : Nat) (ckp txdp : IOPin)
    (h1 : Port.get_pin_object spi.port spi.ck = some ckp)
    (h2 : ckp.value = 0)
    (h3 : ckp.is_output = true)
    (h4 : Port.get_pin_object spi.port spi.txd = some txdp)
    (h5 : txdp.is_output = true)
    (h6 : spi.ck ≠ spi.txd)
    (h7 : pins_in_range spi.port.pin_list)
    (h8 : spi.port.txd_buf = [])
    (h9 : spi.port.debug_mode = false) :
    (SPI.send_byte spi value).port.writes.length =
      spi.port.writes.length + 2 ∧
    (SPI.send_byte spi value).port.writes.take spi.port.writes.length =
      spi.port.writes ∧
    ((SPI.send_byte spi value).port.writes.getD
      spi.port.writes.length []).length = 16 ∧
    (∀ j, j < 8 →
      (((SPI.send_byte spi value).port.writes.getD spi.port.writes.length
        []).getD (2 * j) 0).testBit spi.ck.toNat = false ∧
      (((SPI.send_byte spi value).port.writes.getD spi.port.writes.length
        []).getD (2 * j) 0).testBit spi.txd.toNat = value.testBit (7 - j) ∧
      (((SPI.send_byte spi value).port.writes.getD spi.port.writes.length
        []).getD (2 * j + 1) 0).testBit spi.ck.toNat = true ∧
      (((SPI.send_byte spi value).port.writes.getD spi.port.writes.length
        []).getD (2 * j + 1) 0).testBit spi.txd.toNat =
          value.testBit (7 - j)) ∧
    ((SPI.send_byte spi value).port.writes.getD
      (spi.port.writes.length + 1) []).length = 1 ∧
    (((SPI.send_byte spi value).port.writes.getD
      (spi.port.writes.length + 1) []).getD 0 0).testBit spi.ck.toNat =
        false ∧
    (SPI.send_byte spi value).port.txd_buf = [] := by
  have hckmem : ckp ∈ spi.port.pin_list := List.mem_of_find?_eq_some h1
  have hckno : ckp.no = spi.ck := by
    have := List.find?_some h1
    simpa using this
  have hckr : 0 ≤ spi.ck ∧ spi.ck < 8 := by
    have := h7 ckp hckmem
    rw [hckno] at this
    exact this
  have htxmem : txdp ∈ spi.port.pin_list := List.mem_of_find?_eq_some h4
  have htxno : txdp.no = spi.txd := by
    have := List.find?_some h4
    simpa using this
  have htxr : 0 ≤ spi.txd ∧ spi.txd < 8 := by
    have := h7 txdp htxmem
    rw [htxno] at this
    exact this
  have hock : has_out_pin spi.port.pin_list spi.ck := ⟨ckp, hckmem, hckno, h3⟩
  have hotx : has_out_pin spi.port.pin_list spi.txd :=
    ⟨txdp, htxmem, htxno, h5⟩
  have hnat : spi.ck.toNat ≠ spi.txd.toNat := by omega
  have hnat2 : spi.txd.toNat ≠ spi.ck.toNat := Ne.symm hnat
  have hck0 : 0 ≤ spi.ck := hckr.1
  have htx0 : 0 ≤ spi.txd := htxr.1
  have hpv : Port.pin_value spi.port spi.ck = 0 := by
    unfold Port.pin_value
    rw [h1]
    exact h2
  unfold SPI.send_byte
  rw [if_neg (by simp [hpv])]
  rw [show List.range 8 = [0, 1, 2, 3, 4, 5, 6, 7] from rfl]
  simp only [List.foldl_cons, List.foldl_nil, Port.set_pin_value]
  simp [set_pins_false_short, set_pins_false_atmax, set_pins_true_eq, h8, h9,
    List.append_assoc, getD_append_self, getD_append_self_succ, List.take_left,
    -List.getD_eq_getElem?_getD, List.getD_cons_zero, List.getD_cons_succ]
  refine ⟨?_, ?_⟩
  · intro j hj
    interval_cases j <;>
      simp [List.getD_cons_zero, List.getD_cons_succ,
        -List.getD_eq_getElem?_getD, testBit_assemble_upd_self,
        testBit_assemble_upd_ne, shiftRight_mod_two_beq, beq_one_eq_decide, hnat, hnat2, h7,
        hock, hotx, hck0, htx0]
  · simp [testBit_assemble_upd_self, h7, hock, hck0]

set_option maxRecDepth 100000 in
/-- C4 (counterexample): the claim states that the outgoing byte is
produced as 16 buffered pin-states flushed together in a single link
write at the end of the call; but on the calculator SPI object a
send_byte call issues two link writes (one of 16 bytes, then one of 1
byte), not one. -/
theorem C4_counterexample :
    (SPI.send_byte spiCalc 0xa5).port.writes.length =
      spiCalc.port.writes.length + 2 ∧
    ((SPI.send_byte spiCalc 0xa5).port.writes.getD
      spiCalc.port.writes.length []).length = 16 ∧
    ((SPI.send_byte spiCalc 0xa5).port.writes.getD
      (spiCalc.port.writes.length + 1) []).length = 1 ∧
    (SPI.send_byte spiCalc 0xa5).port.writes.length ≠
      spiCalc.port.writes.length + 1 := by
  decide

set_option maxRecDepth 100000 in
/-- C4 (witness for the amended theorem): applied to the calculator SPI
object and the byte 0x5a. -/
theorem C4_send_byte_witness :
    (SPI.send_byte spiCalc 0x5a).port.writes.length =
      spiCalc.port.writes.length + 2 ∧
    (SPI.send_byte spiCalc 0x5a).port.writes.take
      spiCalc.port.writes.length = spiCalc.port.writes ∧
    ((SPI.send_byte spiCalc 0x5a).port.writes.getD
      spiCalc.port.writes.length []).length = 16 ∧
    (∀ j, j < 8 →
      (((SPI.send_byte spiCalc 0x5a).port.writes.getD
        spiCalc.port.writes.length []).getD (2 * j) 0).testBit
          spiCalc.ck.toNat = false ∧
      (((SPI.send_byte spiCalc 0x5a).port.writes.getD
        spiCalc.port.writes.length []).getD (2 * j) 0).testBit
          spiCalc.txd.toNat = (0x5a : Nat).testBit (7 - j) ∧
      (((SPI.send_byte spiCalc 0x5a).port.writes.getD
        spiCalc.port.writes.length []).getD (2 * j + 1) 0).testBit
          spiCalc.ck.toNat = true ∧
      (((SPI.send_byte spiCalc 0x5a).port.writes.getD
        spiCalc.port.writes.length []).getD (2 * j + 1) 0).testBit
          spiCalc.txd.toNat = (0x5a : Nat).testBit (7 - j)) ∧
    ((SPI.send_byte spiCalc 0x5a).port.writes.getD
      (spiCalc.port.writes.length + 1) []).length = 1 ∧
    (((SPI.send_byte spiCalc 0x5a).port.writes.getD
      (spiCalc.port.writes.length + 1) []).getD 0 0).testBit
        spiCalc.ck.toNat = false ∧
    (SPI.send_byte spiCalc 0x5a).port.txd_buf = [] :=
  C4_send_byte spiCalc 0x5a (IOPin.make 0 "SCK" true 0)
    (IOPin.make 1 "STXD" true 0) (by decide) (by decide) (by decide)
    (by decide) (by decide) (by decide) (by decide) (by decide) (by decide)


/-! Claim C3. -/

/-- C3 (counterexample): the claim states that for every addition the
final decoded value equals the low 8 bits of the raw 9-bit value
(r mod 256); but for a = 200, b = 100 with raw value r = 300 the code
leaves the raw value unmasked and decodes 300, not 300 mod 256 = 44. -/
theorem C3_counterexample :
    MainControl.decode_result true 200 100 300 = 300 ∧
    MainControl.decode_result true 200 100 300 ≠ (300 : Int) % 256 := by
  decide

/-- C3 (amended): for subtraction with a - b < 0 the decoded value is the
negated two's-complement byte magnitude -((-r) mod 256) — which equals
the 9-bit two's-complement reinterpretation r - 512 whenever
256 < r < 512; for subtraction with a - b >= 0 the decoded value is
r mod 256; for addition the decoded value is the raw value r itself,
not reduced mod 256. -/
theorem C3_decode (a b r : Int) :
    MainControl.decode_result true a b r = r ∧
    (0 ≤ a - b → MainControl.decode_result false a b r = r % 256) ∧
    (a - b < 0 → MainControl.decode_result false a b r = -((-r) % 256)) ∧
    (a - b < 0 → 256 < r → r < 512 →
      MainControl.decode_result false a b r = r - 512) := by
  unfold MainControl.decode_result
  refine ⟨by simp, ?_, ?_, ?_⟩
  · intro h; rw [if_pos (by simp), if_neg (by omega)]
  · intro h; rw [if_pos (by simp), if_pos h]; omega
  · intro h h1 h2; rw [if_pos (by simp), if_pos h]; omega

/-- C3 (witness for the amended theorem): 1 - 2 is negative and the raw
value 511 decodes to -1, the 9-bit two's-complement reading. -/
theorem C3_decode_witness : MainControl.decode_result false 1 2 511 = -1 := by
  have h := (C3_decode 1 2 511).2.2.2 (by decide) (by decide) (by decide)
  rw [h]; decide

/-! Claim C10. -/

/-- C10: for all integer arguments, also outside the documented ranges,
write_register sends exactly the same SPI bytes and chip-select sequence
as with the masked arguments dev mod 8, reg mod 32, data mod 256, and
read_register behaves identically with dev mod 8, reg mod 32: the whole
resulting state (including the ghost link-write trace) and the returned
byte coincide; out-of-range arguments are silently masked, never
rejected. -/
theorem C10_register_arg_masking (m : MCPState) (dev reg data : Int)
    (ins : Nat → Nat) :
    MCP23S17.write_register m dev reg data =
      MCP23S17.write_register m (dev % 8) (reg % 32) (data % 256) ∧
    MCP23S17.read_register m dev reg ins =
      MCP23S17.read_register m (dev % 8) (reg % 32) ins := by
  have h8 : dev % 8 % 8 = dev % 8 := Int.emod_emod_of_dvd dev dvd_rfl
  have h32 : reg % 32 % 32 = reg % 32 := Int.emod_emod_of_dvd reg dvd_rfl
  have h256 : data % 256 % 256 = data % 256 := Int.emod_emod_of_dvd data dvd_rfl
  unfold MCP23S17.write_register MCP23S17.read_register
  rw [h8, h32, h256]
  exact ⟨rfl, rfl⟩

/-! Claim C2. -/

/-- C2 (counterexample): the claim states that also in simulation/debug
mode get_pins first flushes pending transmit bytes to the link; but on
the debug-mode calculator port with the byte 0x28 pending, get_pins
leaves the byte in the buffer and issues no link write. -/
theorem C2_counterexample :
    portC2.debug_mode = true ∧ portC2.txd_buf = [0x28] ∧
    (Port.get_pins portC2 0).txd_buf = [0x28] ∧
    (Port.get_pins portC2 0).writes = [] ∧
    ¬ ((Port.get_pins portC2 0).txd_buf = []) := by
  decide

/-- C2 (amended): in hardware mode every get_pins call first flushes any
pending transmit bytes to the link (one link write carrying exactly the
pending buffer, none when it is empty) and only then updates the input
pins from the link snapshot; in simulation/debug mode get_pins reads the
injected debug value directly, without touching the transmit buffer or
the link. -/
theorem C2_get_pins_flush (s : PortState) (link_input : Nat) :
    (s.debug_mode = false →
      (Port.get_pins s link_input).txd_buf = [] ∧
      (Port.get_pins s link_input).writes =
        s.writes ++ (if s.txd_buf = [] then [] else [s.txd_buf]) ∧
      (Port.get_pins s link_input).pin_list =
        Port.update_input_pins s.pin_list link_input) ∧
    (s.debug_mode = true →
      (Port.get_pins s link_input).txd_buf = s.txd_buf ∧
      (Port.get_pins s link_input).writes = s.writes ∧
      (Port.get_pins s link_input).pin_list =
        Port.update_input_pins s.pin_list s.debug_read_data) := by
  have hp := get_pins_pin_list s link_input
  constructor
  · intro h
    rw [h] at hp
    refine ⟨?_, ?_, by simpa using hp⟩ <;>
      unfold Port.get_pins Port.flush_txbuf <;>
        rw [h] <;> by_cases hb : s.txd_buf = [] <;> simp [hb]
  · intro h
    rw [h] at hp
    refine ⟨?_, ?_, by simpa using hp⟩ <;>
      unfold Port.get_pins <;> rw [h] <;> simp

/-- C2 (witness for the amended theorem): on the hardware-mode port with
the byte 0x28 pending, get_pins issues the link write and empties the
buffer before updating the input pins. -/
theorem C2_get_pins_flush_witness :
    (Port.get_pins portHWpending 7).txd_buf = [] ∧
    (Port.get_pins portHWpending 7).writes =
      portHWpending.writes ++
        (if portHWpending.txd_buf = [] then [] else [portHWpending.txd_buf]) ∧
    (Port.get_pins portHWpending 7).pin_list =
      Port.update_input_pins portHWpending.pin_list 7 :=
  (C2_get_pins_flush portHWpending 7).1 rfl

/-! Claim C9. -/

/-- C9: get_pins mutates only the value fields of input pins.  The pin
list keeps its length; every pin keeps its number, name and direction;
every output pin keeps its value; every input pin's value becomes the
corresponding bit of the consulted snapshot (the injected debug value in
debug mode, the link snapshot otherwise); the masks, the mode flag and
the injected debug value are unchanged; and in debug mode the whole
transmit state (buffer, history, link-write trace) is unchanged, while in
hardware mode the only transmit-state change is the flush of the buffer. -/
theorem C9_get_pins_frame (s : PortState) (link_input : Nat) :
    (Port.get_pins s link_input).pin_list.length = s.pin_list.length ∧
    (∀ i d, i < s.pin_list.length →
      (((Port.get_pins s link_input).pin_list.getD i d).no =
          (s.pin_list.getD i d).no ∧
        ((Port.get_pins s link_input).pin_list.getD i d).name =
          (s.pin_list.getD i d).name ∧
        ((Port.get_pins s link_input).pin_list.getD i d).is_output =
          (s.pin_list.getD i d).is_output) ∧
      ((s.pin_list.getD i d).is_output = true →
        ((Port.get_pins s link_input).pin_list.getD i d).value =
          (s.pin_list.getD i d).value) ∧
      ((s.pin_list.getD i d).is_output = false →
        ((Port.get_pins s link_input).pin_list.getD i d).value =
          ((if s.debug_mode then s.debug_read_data else link_input) >>>
              (s.pin_list.getD i d).no.toNat) &&& 1)) ∧
    (Port.get_pins s link_input).output_pins = s.output_pins ∧
    (Port.get_pins s link_input).input_pins = s.input_pins ∧
    (Port.get_pins s link_input).debug_mode = s.debug_mode ∧
    (Port.get_pins s link_input).debug_read_data = s.debug_read_data ∧
    (s.debug_mode = true →
      (Port.get_pins s link_input).txd_buf = s.txd_buf ∧
      (Port.get_pins s link_input).signal_history = s.signal_history ∧
      (Port.get_pins s link_input).writes = s.writes) := by
  have hp := get_pins_pin_list s link_input
  have hfields :
      (Port.get_pins s link_input).output_pins = s.output_pins ∧
      (Port.get_pins s link_input).input_pins = s.input_pins ∧
      (Port.get_pins s link_input).debug_mode = s.debug_mode ∧
      (Port.get_pins s link_input).debug_read_data = s.debug_read_data := by
    unfold Port.get_pins Port.flush_txbuf
    by_cases hb : s.txd_buf = [] <;> cases h : s.debug_mode <;> simp [h, hb]
  refine ⟨?_, ?_, hfields.1, hfields.2.1, hfields.2.2.1, hfields.2.2.2, ?_⟩
  · rw [hp]; unfold Port.update_input_pins; exact List.length_map _ _
  · intro i d hi
    have hgd :
        (Port.get_pins s link_input).pin_list.getD i d =
          (fun pin =>
            if pin.is_output then pin
            else { pin with value :=
              ((if s.debug_mode then s.debug_read_data else link_input) >>>
                pin.no.toNat) &&& 1 }) (s.pin_list.getD i d) := by
      rw [hp]
      unfold Port.update_input_pins
      rw [List.getD_eq_getElem _ _ (by simpa using hi),
        List.getD_eq_getElem _ _ hi, List.getElem_map]
    rw [hgd]
    cases hout : (s.pin_list.getD i d).is_output <;>
      rw [List.getD_eq_getElem?_getD] at hout <;> simp [hout]
  · intro h
    unfold Port.get_pins
    rw [h]
    simp

/-- C9 (witness): on the debug calculator port, the input pin SRXD (list
position 4, pin number 2) takes bit 2 of the injected debug value. -/
theorem C9_get_pins_frame_witness :
    ((Port.get_pins portC2 0).pin_list.getD 4 (IOPin.make 0 "Z" false 0)).value =
      ((if portC2.debug_mode then portC2.debug_read_data else 0) >>>
        (portC2.pin_list.getD 4 (IOPin.make 0 "Z" false 0)).no.toNat) &&& 1 :=
  ((C9_get_pins_frame portC2 0).2.1 4 (IOPin.make 0 "Z" false 0)
    (by decide)).2.2 (by decide)

end Calc
